import Mathlib

/-!
# Verification of the `iref-enum` derive generator

A shallow embedding of `src/lib.rs` of the `iref-enum` crate: a
compile-time code generator that turns an attribute-tagged enum
declaration into conversion code between IRIs and enum values.

Modelling conventions:
  * Token trees (`proc_macro2::TokenTree`) are modelled by the inductive
    `Tok` (literal / group / ident / punct).  A literal token carries the
    character list of its textual representation (`lit.to_string()`).
  * Rust `String` / `&str` values are modelled by `List Char` where
    byte-level behaviour matters (the source mixes `str::len`, a byte
    count, with `chars().enumerate()`, a character count, in
    `string_literal_token`; we model the byte count explicitly with
    `utf8Len`) and by Lean `String` elsewhere.
  * `iref::IriBuf` is an external dependency, out of scope per the spec;
    its interface is "a constructor that validates a string and returns a
    well-formed identifier value or an error", with string rendering
    (`as_str`) returning the validated string and equality being equality
    of the rendered string.  We model it by the structure `Iri` wrapping
    the string, together with a validity predicate `valid : String → Bool`
    taken as a parameter everywhere; `iriNew valid s` models
    `IriBuf::new(s)`.
  * `std::collections::HashMap` is used only through `insert` and `get`;
    we model it by an association list where `hmInsert` conses and `hmGet`
    takes the first (hence most recent) binding, which reproduces the
    map's last-insert-wins semantics.
  * `proc_macro::TokenStream` error output (the `error!` macro, which
    emits `compile_error!("msg")`) is modelled by the error message
    string itself.
-/

deriving instance DecidableEq for Except

/-- Model of `proc_macro2::TokenTree`: a literal token (carrying the
character list of its `to_string()` form), a delimited group (carrying its
inner token stream), an identifier, or a punctuation character. -/
inductive Tok : Type where
  | lit (s : List Char)
  | group (ts : List Tok)
  | ident (s : List Char)
  | punct (c : Char)

/-- The UTF-8 byte length of a character list: Rust's `str::len`. -/
def utf8Len (s : List Char) : Nat :=
  s.foldl (fun n c => n + c.utf8Size) 0

/-- Model of `iref::IriBuf` (external library, out of scope in the spec):
a validated IRI, rendered by `as_str` as exactly the string it was
constructed from. -/
structure Iri : Type where
  val : String
deriving DecidableEq

/-- Model of `IriBuf::new`: validate the string with the (parametric)
validity predicate, wrapping it on success. -/
def iriNew (valid : String → Bool) (s : String) : Option Iri :=
  if valid s then some ⟨s⟩ else none

/-- `HashMap::get`, on the association-list model: first (most recent)
binding wins. -/
def hmGet (m : List (String × Iri)) (k : String) : Option Iri :=
  (m.find? (fun p => p.1 == k)).map (·.2)

/-- `HashMap::insert`, on the association-list model: cons the new
binding, shadowing any earlier one. -/
def hmInsert (m : List (String × Iri)) (k : String) (v : Iri) : List (String × Iri) :=
  (k, v) :: m

/-- The loop body of `string_literal_token` (src/lib.rs lines 306–323),
applied to the textual representation `str` of a literal token.  Faithful
to the source: the bound `str.len()` is the BYTE length while `i` ranges
over CHARACTER indices (`str.chars().enumerate()`); each character at
position `0` or `str.len() - 1` must be `"`, every other character is
pushed to the buffer. -/
def strLitChars (str : List Char) : Except String (List Char) :=
  if utf8Len str ≥ 2 then
    let n := utf8Len str
    let step := fun (acc : Except String (List Char)) (ic : Nat × Char) =>
      match acc with
      | .error e => .error e
      | .ok buffer =>
        if ic.1 = 0 ∨ ic.1 = n - 1 then
          if ic.2 ≠ '"' then .error "expected string literal" else .ok buffer
        else .ok (buffer ++ [ic.2])
    str.enum.foldl step (.ok [])
  else
    .error "expected string literal"

/-- Model of `string_literal_token` (src/lib.rs lines 304–327): accept
only a literal token and run `strLitChars` on its textual form. -/
def string_literal_token (token : Tok) : Except String (List Char) :=
  match token with
  | .lit s => strLitChars s
  | _ => .error "expected string literal"

/-- Model of `string_literal` (src/lib.rs lines 296–302): take the FIRST
token of the stream (`tokens.into_iter().next()`) and extract its string
content; an empty stream is an error.  Tokens after the first are never
read. -/
def string_literal (tokens : List Tok) : Except String (List Char) :=
  match tokens with
  | token :: _ => string_literal_token token
  | [] => .error "expected one string parameter"

/-- Model of `expand_iri` (src/lib.rs lines 82–106).  `value.find(':')`
is the position of the first `:` (`:` is ASCII, so splitting at its byte
index is splitting the character list just before the first `:`);
`index > 0` means the part before the colon is nonempty.  If the suffix
after the colon does not start with `//` and the part before the colon is
a registered prefix, the concatenation of the base IRI and the suffix is
validated, its failure being a hard error; in every other case the whole
original string is validated as an absolute IRI. -/
def expand_iri (valid : String → Bool) (value : List Char)
    (prefixes : List (String × Iri)) : Except Unit Iri :=
  let absolute : Except Unit Iri :=
    match iriNew valid (String.mk value) with
    | some iri => .ok iri
    | none => .error ()
  match value.dropWhile (· ≠ ':') with
  | ':' :: suffix =>
    let pfx := value.takeWhile (· ≠ ':')
    if pfx.length > 0 then
      if ¬ (List.isPrefixOf ['/', '/'] suffix) then
        match hmGet prefixes (String.mk pfx) with
        | some base_iri =>
          match iriNew valid (base_iri.val ++ String.mk suffix) with
          | some iri => .ok iri
          | none => .error ()
        | none => absolute
      else absolute
    else absolute
  | _ => absolute

/-- Model of `syn::Attribute`: `path` is `Some id` when the attribute's
path is a single identifier (`attr.path.get_ident()`), `none` otherwise;
`tokens` is the attribute's argument token stream (`attr.tokens`). -/
structure Attribute : Type where
  path : Option String
  tokens : List Tok

/-- Model of `syn::Fields` for one variant: no fields, named fields, or
unnamed (tuple) fields whose element types are kept as opaque names. -/
inductive FieldsShape : Type where
  | unit
  | named
  | unnamed (tys : List String)
deriving DecidableEq

/-- Model of `syn::Variant`: name, attributes, field shape. -/
structure Variant : Type where
  ident : String
  attrs : List Attribute
  fields : FieldsShape

/-- Model of a `syn::DeriveInput` whose `data` is `Data::Enum` (the only
case in which the macro generates code; any other `data` yields the
`only enums are handled by IriEnum` error and is not modelled further). -/
structure EnumInput : Type where
  ident : String
  attrs : List Attribute
  variants : List Variant

/-- Model of `filter_attribute` (src/lib.rs lines 63–80): if the
attribute's path is the single identifier `name`, its first argument
token must be a group, whose inner stream is returned; a missing or
non-group first token is the malformed error; any other path means "not
this attribute". -/
def filter_attribute (attr : Attribute) (name : String) :
    Except String (Option (List Tok)) :=
  match attr.path with
  | some attr_id =>
    if attr_id == name then
      match attr.tokens with
      | .group ts :: _ => .ok (some ts)
      | _ => .error ("malformed `" ++ name ++ "` attribute")
    else .ok none
  | none => .ok none

/-- The `iri_prefix` loop of `iri_enum_derive` (src/lib.rs lines
112–152).  For each attribute matched by `filter_attribute` with name
`iri_prefix`, the inner stream is consumed by an iterator: the first
token must be a string literal (the prefix name); the second token need
only EXIST (`tokens.next().is_some()` — the source never checks it is
`=`); the third token must be a string literal, which must validate as an
IRI; any further tokens are never read.  On success the binding is
inserted and the loop continues; each failure is an immediate return of
the corresponding diagnostic. -/
def buildPrefixes (valid : String → Bool) (attrs : List Attribute)
    (m : List (String × Iri)) : Except String (List (String × Iri)) :=
  match attrs with
  | [] => .ok m
  | attr :: rest =>
    match filter_attribute attr "iri_prefix" with
    | .error msg => .error msg
    | .ok none => buildPrefixes valid rest m
    | .ok (some tokens) =>
      match tokens with
      | [] => .error "expected a string literal"
      | t0 :: more =>
        match string_literal_token t0 with
        | .error _ => .error "expected a string literal"
        | .ok pfx =>
          match more with
          | [] => .error "expected `=` literal"
          | _ :: more2 =>
            match more2 with
            | [] => .error "expected a string literal"
            | t2 :: _ =>
              match string_literal_token t2 with
              | .error _ => .error "expected a string literal"
              | .ok iriStr =>
                match iriNew valid (String.mk iriStr) with
                | some iri =>
                  buildPrefixes valid rest (hmInsert m (String.mk pfx) iri)
                | none =>
                  .error ("invalid IRI `" ++ String.mk iriStr ++ "` for prefix `"
                    ++ String.mk pfx ++ "`")

/-- The variant-attribute loop of `iri_enum_derive` (src/lib.rs lines
165–183): scan the variant's attributes for `iri` attributes; each one's
stream is read by `string_literal` and expanded by `expand_iri`, the
result overwriting `variant_iri`; expansion failure and malformed
attributes abort with the corresponding diagnostic. -/
def processAttrs (valid : String → Bool) (prefixes : List (String × Iri))
    (variant_ident : String) (attrs : List Attribute) (variant_iri : Option Iri) :
    Except String (Option Iri) :=
  match attrs with
  | [] => .ok variant_iri
  | attr :: rest =>
    match filter_attribute attr "iri" with
    | .error msg => .error msg
    | .ok none => processAttrs valid prefixes variant_ident rest variant_iri
    | .ok (some tokens) =>
      match string_literal tokens with
      | .error _ => .error "malformed `iri` attribute"
      | .ok str =>
        match expand_iri valid str prefixes with
        | .ok iri => processAttrs valid prefixes variant_ident rest (some iri)
        | .error _ =>
          .error ("invalid IRI `" ++ String.mk str ++ "` for variant `"
            ++ variant_ident ++ "`")

/-- One arm of the generated `From<&T> for &Iri` match (the `into`
accumulator): a `Unit` variant renders its fixed IRI, a wrapping variant
delegates to its single field's own conversion (`v.into()`, dispatched on
the field type). -/
inductive IntoArm : Type where
  | unitArm (name : String) (iri : String)
  | wrapArm (name : String) (ty : String)
deriving DecidableEq

/-- The variant name an `IntoArm` matches on. -/
def IntoArm.name : IntoArm → String
  | .unitArm n _ => n
  | .wrapArm n _ => n

/-- The semantic content of the three token-stream accumulators of the
variant loop (src/lib.rs lines 157–159): `unitArms` are the guarded arms
`_ if iri == static_iref::iri!(I) => Ok(V)` of `try_from`, in the order
they were appended; `wraps` records, in the order they were processed,
the wrapping variants folded into `try_from_default` (name and inner
type); `intoArms` are the arms of the rendering match, in order. -/
structure GeneratedCode : Type where
  unitArms : List (String × String)
  wraps : List (String × String)
  intoArms : List IntoArm
deriving DecidableEq

/-- The empty accumulator state at the start of the variant loop:
`try_from` empty, `try_from_default = Err(())`, `into` empty. -/
def initState : GeneratedCode := ⟨[], [], []⟩

/-- The variant loop of `iri_enum_derive` (src/lib.rs lines 161–228):
process each variant's attributes, then classify its field shape.  A
`Unit` variant requires an extracted IRI and appends one `try_from` arm
and one `into` arm; a single-unnamed-field variant wraps the current
`try_from_default` (recorded by appending to `wraps`) and appends a
delegating `into` arm; named fields or several unnamed fields abort with
the corresponding diagnostic. -/
def processVariants (valid : String → Bool) (prefixes : List (String × Iri))
    (variants : List Variant) (st : GeneratedCode) :
    Except String GeneratedCode :=
  match variants with
  | [] => .ok st
  | v :: rest =>
    match processAttrs valid prefixes v.ident v.attrs none with
    | .error msg => .error msg
    | .ok variant_iri =>
      match v.fields with
      | .unit =>
        match variant_iri with
        | some iri =>
          processVariants valid prefixes rest
            { unitArms := st.unitArms ++ [(iri.val, v.ident)]
              wraps := st.wraps
              intoArms := st.intoArms ++ [.unitArm v.ident iri.val] }
        | none => .error ("missing IRI for enum variant `" ++ v.ident ++ "`")
      | .named => .error "variants with named fields are unsupported"
      | .unnamed tys =>
        match tys with
        | [ty] =>
          processVariants valid prefixes rest
            { unitArms := st.unitArms
              wraps := st.wraps ++ [(v.ident, ty)]
              intoArms := st.intoArms ++ [.wrapArm v.ident ty] }
        | _ => .error "variants with named more than one field are unsupported"

/-- The outcome of one macro invocation: either a `compile_error!`
diagnostic (carrying its message) or the generated conversion code. -/
inductive DeriveOutput : Type where
  | error (msg : String)
  | code (g : GeneratedCode)
deriving DecidableEq

/-- Model of the `iri_enum_derive` entry point (src/lib.rs lines
108–294) on an enum input: build the prefix table from the
declaration-level attributes, then run the variant loop from the empty
accumulators; the first failure replaces the output with its diagnostic. -/
def iri_enum_derive (valid : String → Bool) (ast : EnumInput) : DeriveOutput :=
  match buildPrefixes valid ast.attrs [] with
  | .error msg => .error msg
  | .ok prefixes =>
    match processVariants valid prefixes ast.variants initState with
    | .error msg => .error msg
    | .ok st => .code st

/-- Enum values of the generated type, over an arbitrary domain `IV` of
inner (wrapped) values: `unitV` is a field-less variant, `wrapV` a
variant holding one inner value. -/
inductive EnumVal (IV : Type) : Type where
  | unitV (name : String)
  | wrapV (name : String) (v : IV)
deriving DecidableEq

/-- Denotation of the `try_from_default` expression built by folding the
wrapping variants (src/lib.rs lines 209–216), parametric in the inner
types' own `TryFrom` implementations `env : type name → input → result`.
Starting from `Err(())`, each processed wrapping variant produces a new
default that FIRST tries its own inner type and falls back to the
previous default on failure — exactly the nesting the source's
`quote!` builds. -/
def defaultSem {IV : Type} (env : String → String → Except Unit IV)
    (wraps : List (String × String)) : String → Except Unit (EnumVal IV) :=
  wraps.foldl
    (fun dflt w iri =>
      match env w.2 iri with
      | .ok value => .ok (.wrapV w.1 value)
      | .error _ => dflt iri)
    (fun _ => .error ())

/-- Denotation of the generated `TryFrom<&Iri>` implementation
(src/lib.rs lines 230–240): a match running the guarded `Unit` arms
top to bottom (first identifier match wins) and otherwise the
`try_from_default` chain.  External `Iri` equality is equality of the
rendered string. -/
def tryFromSem {IV : Type} (env : String → String → Except Unit IV)
    (g : GeneratedCode) (iri : String) : Except Unit (EnumVal IV) :=
  match g.unitArms.find? (fun p => p.1 == iri) with
  | some p => .ok (.unitV p.2)
  | none => defaultSem env g.wraps iri

/-- Denotation of the generated `From<&T> for &Iri` implementation
(src/lib.rs lines 243–250): match the value's variant against the arms
in order; a `Unit` arm yields its fixed IRI, a wrapping arm delegates to
the inner type's own rendering `renderInner`.  `none` models a value
whose variant has no arm (impossible for values of the real generated
type, whose match is exhaustive). -/
def renderSem {IV : Type} (renderInner : String → IV → String)
    (arms : List IntoArm) (v : EnumVal IV) : Option String :=
  match v with
  | .unitV n =>
    arms.findSome? (fun a =>
      match a with
      | .unitArm m i => if m == n then some i else none
      | .wrapArm _ _ => none)
  | .wrapV n iv =>
    arms.findSome? (fun a =>
      match a with
      | .unitArm _ _ => none
      | .wrapArm m ty => if m == n then some (renderInner ty iv) else none)

/-- The absolute fallback of `expand_iri` (src/lib.rs lines 101–105):
validate the whole original string directly, ignoring the prefix table. -/
def expandAbsolute (valid : String → Bool) (value : List Char) : Except Unit Iri :=
  match iriNew valid (String.mk value) with
  | some iri => .ok iri
  | none => .error ()

/-- The declaration-order list of wrapping variants (name and inner
type) recorded by a successful variant loop. -/
def wrapsOf (vs : List Variant) : List (String × String) :=
  vs.filterMap (fun v =>
    match v.fields with
    | .unnamed [ty] => some (v.ident, ty)
    | _ => none)

/-- The declaration-order list of `try_from` unit arms produced by a
successful variant loop: one `(expanded iri, name)` pair per `Unit`
variant. -/
def unitArmsOf (valid : String → Bool) (prefixes : List (String × Iri))
    (vs : List Variant) : List (String × String) :=
  vs.filterMap (fun v =>
    match v.fields, processAttrs valid prefixes v.ident v.attrs none with
    | .unit, .ok (some iri) => some (iri.val, v.ident)
    | _, _ => none)

/-- The declaration-order list of rendering arms produced by a successful
variant loop. -/
def intoArmsOf (valid : String → Bool) (prefixes : List (String × Iri))
    (vs : List Variant) : List IntoArm :=
  vs.filterMap (fun v =>
    match v.fields, processAttrs valid prefixes v.ident v.attrs none with
    | .unit, .ok (some iri) => some (.unitArm v.ident iri.val)
    | .unnamed [ty], _ => some (.wrapArm v.ident ty)
    | _, _ => none)

/-- The delegation chain in the textual order of its nesting: try each
listed wrapping variant's inner type in turn, wrapping the first success;
fail when the list is exhausted. -/
def chainTry {IV : Type} (env : String → String → Except Unit IV) :
    List (String × String) → String → Except Unit (EnumVal IV)
  | [], _ => .error ()
  | w :: rest, iri =>
    match env w.2 iri with
    | .ok value => .ok (.wrapV w.1 value)
    | .error _ => chainTry env rest iri

/-- A validity predicate accepting every string. -/
def validTrue : String → Bool := fun _ => true

/-- A validity predicate rejecting every string. -/
def validFalse : String → Bool := fun _ => false

/-- A validity predicate accepting exactly the string `a:b`. -/
def validAB : String → Bool := fun s => s == "a:b"

/-- A well-formed variant-level `iri("<s>")` attribute: the argument
stream is one parenthesised group holding one string-literal token. -/
def iriAttrOn (s : String) : Attribute :=
  ⟨some "iri", [.group [.lit ("\"" ++ s ++ "\"").data]]⟩

/-- An enum with two `Unit` variants `A` and `B` both tagged with the
identifier `a:b` (the macro does not reject duplicate identifiers). -/
def dupAst : EnumInput :=
  ⟨"D", [], [⟨"A", [iriAttrOn "a:b"], .unit⟩, ⟨"B", [iriAttrOn "a:b"], .unit⟩]⟩

/-- The code generated for `dupAst`. -/
def dupCode : GeneratedCode :=
  ⟨[("a:b", "A"), ("a:b", "B")], [],
    [.unitArm "A" "a:b", .unitArm "B" "a:b"]⟩

/-- An enum with two wrapping variants, `W1(A)` declared before `W2(B)`. -/
def wrapPairAst : EnumInput :=
  ⟨"V", [], [⟨"W1", [], .unnamed ["A"]⟩, ⟨"W2", [], .unnamed ["B"]⟩]⟩

/-- The code generated for `wrapPairAst`. -/
def wrapPairCode : GeneratedCode :=
  ⟨[], [("W1", "A"), ("W2", "B")], [.wrapArm "W1" "A", .wrapArm "W2" "B"]⟩

/-- An inner-type environment (over inner-value domain `Unit`) whose
every type parses every input successfully. -/
def envAll : String → String → Except Unit Unit := fun _ _ => .ok ()

/-- An `iri_prefix` attribute whose middle token is `+` rather than `=`
and which carries a fourth, extra token. -/
def plusAttr : Attribute :=
  ⟨some "iri_prefix",
    [.group [.lit "\"a\"".data, .punct '+', .lit "\"b\"".data, .ident ['z']]]⟩

/-- An inner-type environment whose every type rejects every input. -/
def envNone : String → String → Except Unit Unit := fun _ _ => .error ()

/-- A validity predicate accepting exactly `s:n` and `s:k`. -/
def validSK : String → Bool := fun s => s == "s:n" || s == "s:k"

/-- An enum with two `Unit` variants carrying distinct identifiers. -/
def twoUnitAst : EnumInput :=
  ⟨"V", [], [⟨"Name", [iriAttrOn "s:n"], .unit⟩, ⟨"Knows", [iriAttrOn "s:k"], .unit⟩]⟩

/-- The code generated for `twoUnitAst`. -/
def twoUnitCode : GeneratedCode :=
  ⟨[("s:n", "Name"), ("s:k", "Knows")], [],
    [.unitArm "Name" "s:n", .unitArm "Knows" "s:k"]⟩

/-- A concrete inner-type rendering environment. -/
def renderX : String → Unit → String := fun _ _ => "X"

/-- An enum whose single variant wraps one field and carries an `iri`
attribute whose argument cannot be expanded to a valid IRI. -/
def badWrapAst : EnumInput :=
  ⟨"E4", [], [⟨"W", [iriAttrOn "bad"], .unnamed ["T"]⟩]⟩

theorem dropWhile_colon (p s : List Char) (hc : ':' ∉ p) :
    (p ++ ':' :: s).dropWhile (· ≠ ':') = ':' :: s := by
  induction p with
  | nil => simp [List.dropWhile]
  | cons c p ih =>
    have hcc : c ≠ ':' := fun h => hc (h ▸ List.mem_cons_self c p)
    rw [List.cons_append, List.dropWhile_cons, if_pos (by simpa using hcc)]
    exact ih (fun h => hc (List.mem_cons_of_mem c h))

theorem takeWhile_colon (p s : List Char) (hc : ':' ∉ p) :
    (p ++ ':' :: s).takeWhile (· ≠ ':') = p := by
  induction p with
  | nil => simp [List.takeWhile]
  | cons c p ih =>
    have hcc : c ≠ ':' := fun h => hc (h ▸ List.mem_cons_self c p)
    rw [List.cons_append, List.takeWhile_cons, if_pos (by simpa using hcc)]
    rw [ih (fun h => hc (List.mem_cons_of_mem c h))]

theorem processAttrs_append (valid : String → Bool) (prefixes : List (String × Iri))
    (vid : String) (l₁ l₂ : List Attribute) (acc : Option Iri) :
    processAttrs valid prefixes vid (l₁ ++ l₂) acc =
      (match processAttrs valid prefixes vid l₁ acc with
       | .ok a => processAttrs valid prefixes vid l₂ a
       | .error e => .error e) := by
  induction l₁ generalizing acc with
  | nil => simp [processAttrs]
  | cons a l ih =>
    simp only [List.cons_append, processAttrs]
    split
    · rfl
    · exact ih acc
    · split
      · rfl
      · split
        · exact ih _
        · rfl

theorem processAttrs_no_iri (valid : String → Bool) (prefixes : List (String × Iri))
    (vid : String) (attrs : List Attribute) (acc : Option Iri)
    (h : ∀ a ∈ attrs, a.path ≠ some "iri") :
    processAttrs valid prefixes vid attrs acc = .ok acc := by
  induction attrs with
  | nil => rfl
  | cons a l ih =>
    have ha : a.path ≠ some "iri" := h a (List.mem_cons_self a l)
    have hrest : ∀ b ∈ l, b.path ≠ some "iri" :=
      fun b hb => h b (List.mem_cons_of_mem a hb)
    simp only [processAttrs]
    have hf : filter_attribute a "iri" = .ok none := by
      unfold filter_attribute
      cases hp : a.path with
      | none => rfl
      | some id =>
        have : id ≠ "iri" := fun h' => ha (by rw [hp, h'])
        simp [this]
    rw [hf]
    exact ih hrest

theorem processVariants_append (valid : String → Bool) (prefixes : List (String × Iri))
    (vs₁ vs₂ : List Variant) (st : GeneratedCode) :
    processVariants valid prefixes (vs₁ ++ vs₂) st =
      (match processVariants valid prefixes vs₁ st with
       | .ok st' => processVariants valid prefixes vs₂ st'
       | .error e => .error e) := by
  induction vs₁ generalizing st with
  | nil => simp [processVariants]
  | cons v l ih =>
    simp only [List.cons_append, processVariants]
    split
    · rfl
    · split
      · split
        · exact ih _
        · rfl
      · rfl
      · split <;> first | exact ih _ | rfl

theorem processVariants_structure (valid : String → Bool) (prefixes : List (String × Iri))
    (vs : List Variant) (st st' : GeneratedCode)
    (h : processVariants valid prefixes vs st = .ok st') :
    st'.unitArms = st.unitArms ++ unitArmsOf valid prefixes vs ∧
    st'.wraps = st.wraps ++ wrapsOf vs ∧
    st'.intoArms = st.intoArms ++ intoArmsOf valid prefixes vs := by
  induction vs generalizing st with
  | nil =>
    simp only [processVariants, Except.ok.injEq] at h
    subst h
    simp [unitArmsOf, wrapsOf, intoArmsOf]
  | cons v l ih =>
    simp only [processVariants] at h
    rcases hb : processAttrs valid prefixes v.ident v.attrs none with msg | variant_iri <;>
      rw [hb] at h
    · exact absurd h (by simp)
    · rcases hfl : v.fields with _ | _ | tys <;> rw [hfl] at h
      · rcases variant_iri with _ | iri
        · exact absurd h (by simp)
        · have hrec := ih _ h
          refine ⟨?_, ?_, ?_⟩ <;>
            simp [unitArmsOf, wrapsOf, intoArmsOf, List.filterMap_cons, hfl, hb,
              hrec.1, hrec.2.1, hrec.2.2]
      · exact absurd h (by simp)
      · match tys with
        | [] => exact absurd h (by simp)
        | [ty] =>
          have hrec := ih _ h
          refine ⟨?_, ?_, ?_⟩ <;>
            simp [unitArmsOf, wrapsOf, intoArmsOf, List.filterMap_cons, hfl, hb,
              hrec.1, hrec.2.1, hrec.2.2]
        | t1 :: t2 :: ts => exact absurd h (by simp)

theorem defaultSem_eq_chainTry {IV : Type} (env : String → String → Except Unit IV)
    (ws : List (String × String)) (iri : String) :
    defaultSem env ws iri = chainTry env ws.reverse iri := by
  induction ws using List.reverseRecOn with
  | nil => rfl
  | append_singleton ws w ih =>
    have hl : defaultSem env (ws ++ [w]) iri =
        (match env w.2 iri with
         | .ok value => .ok (.wrapV w.1 value)
         | .error _ => defaultSem env ws iri) := by
      rw [defaultSem, List.foldl_append]
      rfl
    rw [hl, List.reverse_append]
    simp only [List.reverse_singleton, List.singleton_append, chainTry]
    cases env w.2 iri with
    | ok value => rfl
    | error u => exact ih

theorem chainTry_all_fail {IV : Type} (env : String → String → Except Unit IV)
    (ws : List (String × String)) (iri : String)
    (h : ∀ w ∈ ws, env w.2 iri = .error ()) :
    chainTry env ws iri = (.error () : Except Unit (EnumVal IV)) := by
  induction ws with
  | nil => rfl
  | cons w rest ih =>
    rw [chainTry, h w (List.mem_cons_self w rest)]
    exact ih (fun x hx => h x (List.mem_cons_of_mem w hx))

theorem find?_fst_split (l₁ : List (String × String)) (p : String × String)
    (l₂ : List (String × String)) (i : String)
    (hl : ∀ q ∈ l₁, q.1 ≠ i) (hp : p.1 = i) :
    (l₁ ++ p :: l₂).find? (fun q => q.1 == i) = some p := by
  induction l₁ with
  | nil => simp [List.find?, hp]
  | cons q l ih =>
    have hq : (q.1 == i) = false := by
      simpa using hl q (List.mem_cons_self q l)
    rw [List.cons_append, List.find?_cons, hq]
    exact ih (fun r hr => hl r (List.mem_cons_of_mem q hr))

theorem renderSem_unit_split {IV : Type} (renderInner : String → IV → String)
    (m₁ : List IntoArm) (n i : String) (m₂ : List IntoArm)
    (hm : ∀ a ∈ m₁, IntoArm.name a ≠ n) :
    renderSem renderInner (m₁ ++ .unitArm n i :: m₂) (.unitV n) = some i := by
  induction m₁ with
  | nil => simp [renderSem, List.findSome?]
  | cons a l ih =>
    have ha : IntoArm.name a ≠ n := hm a (List.mem_cons_self a l)
    rw [List.cons_append]
    rw [renderSem] at ih ⊢
    rw [List.findSome?]
    have hm2 : ∀ b ∈ l, IntoArm.name b ≠ n :=
      fun b hb => hm b (List.mem_cons_of_mem a hb)
    rcases a with ⟨m, j⟩ | ⟨m, ty⟩
    · have hmn : (m == n) = false := by simpa [IntoArm.name] using ha
      simpa [hmn] using ih hm2
    · simpa using ih hm2

theorem derive_code_processVariants (valid : String → Bool) (ast : EnumInput)
    (g : GeneratedCode) (prefixes : List (String × Iri))
    (hp : buildPrefixes valid ast.attrs [] = .ok prefixes)
    (hd : iri_enum_derive valid ast = .code g) :
    processVariants valid prefixes ast.variants initState = .ok g := by
  have hu : iri_enum_derive valid ast =
      (match processVariants valid prefixes ast.variants initState with
       | .error msg => .error msg
       | .ok st => .code st) := by
    rw [iri_enum_derive, hp]
  rw [hu] at hd
  rcases hv : processVariants valid prefixes ast.variants initState with msg | st <;>
    rw [hv] at hd <;> simp at hd
  rw [hd]

theorem derive_error_of_processVariants (valid : String → Bool) (ast : EnumInput)
    (prefixes : List (String × Iri)) (msg : String)
    (hp : buildPrefixes valid ast.attrs [] = .ok prefixes)
    (he : processVariants valid prefixes ast.variants initState = .error msg) :
    iri_enum_derive valid ast = .error msg := by
  have hu : iri_enum_derive valid ast =
      (match processVariants valid prefixes ast.variants initState with
       | .error m => .error m
       | .ok st => .code st) := by
    rw [iri_enum_derive, hp]
  rw [hu, he]

theorem unitArmsOf_append (valid : String → Bool) (prefixes : List (String × Iri))
    (l₁ l₂ : List Variant) :
    unitArmsOf valid prefixes (l₁ ++ l₂)
      = unitArmsOf valid prefixes l₁ ++ unitArmsOf valid prefixes l₂ := by
  simp [unitArmsOf, List.filterMap_append]

theorem unitArmsOf_cons_unit (valid : String → Bool) (prefixes : List (String × Iri))
    (v : Variant) (l : List Variant) (iri : Iri)
    (hshape : v.fields = .unit)
    (hiri : processAttrs valid prefixes v.ident v.attrs none = .ok (some iri)) :
    unitArmsOf valid prefixes (v :: l)
      = (iri.val, v.ident) :: unitArmsOf valid prefixes l := by
  rw [unitArmsOf, List.filterMap_cons, hshape, hiri]
  rfl

theorem intoArmsOf_append (valid : String → Bool) (prefixes : List (String × Iri))
    (l₁ l₂ : List Variant) :
    intoArmsOf valid prefixes (l₁ ++ l₂)
      = intoArmsOf valid prefixes l₁ ++ intoArmsOf valid prefixes l₂ := by
  simp [intoArmsOf, List.filterMap_append]

theorem intoArmsOf_cons_unit (valid : String → Bool) (prefixes : List (String × Iri))
    (v : Variant) (l : List Variant) (iri : Iri)
    (hshape : v.fields = .unit)
    (hiri : processAttrs valid prefixes v.ident v.attrs none = .ok (some iri)) :
    intoArmsOf valid prefixes (v :: l)
      = .unitArm v.ident iri.val :: intoArmsOf valid prefixes l := by
  rw [intoArmsOf, List.filterMap_cons, hshape, hiri]
  rfl

theorem unitArmsOf_mem_fst (valid : String → Bool) (prefixes : List (String × Iri))
    (vs : List Variant) (q : String × String)
    (hq : q ∈ unitArmsOf valid prefixes vs) :
    ∃ w ∈ vs, w.fields = .unit ∧
      processAttrs valid prefixes w.ident w.attrs none = .ok (some ⟨q.1⟩) ∧
      q.2 = w.ident := by
  rw [unitArmsOf, List.mem_filterMap] at hq
  obtain ⟨w, hw, hfw⟩ := hq
  refine ⟨w, hw, ?_⟩
  split at hfw
  · next iri hfields hproc =>
    obtain rfl : (iri.val, w.ident) = q := by simpa using hfw
    exact ⟨hfields, hproc, rfl⟩
  · exact absurd hfw (by simp)

theorem intoArmsOf_mem_name (valid : String → Bool) (prefixes : List (String × Iri))
    (vs : List Variant) (b : IntoArm)
    (hb : b ∈ intoArmsOf valid prefixes vs) :
    ∃ w ∈ vs, IntoArm.name b = w.ident := by
  rw [intoArmsOf, List.mem_filterMap] at hb
  obtain ⟨w, hw, hfw⟩ := hb
  refine ⟨w, hw, ?_⟩
  split at hfw
  · next iri hfields hproc =>
    obtain rfl : IntoArm.unitArm w.ident iri.val = b := by simpa using hfw
    rfl
  · next ty hfields =>
    obtain rfl : IntoArm.wrapArm w.ident ty = b := by simpa using hfw
    rfl
  · exact absurd hfw (by simp)

/-- Claim C10: the `iri(...)` attribute's argument stream is read only up
to its first token — whenever the first token extracts to a string
literal's content `s`, `string_literal` succeeds with `s` on the whole
stream, and the result never depends on the tokens after the first
(`string_literal (t :: rest)` equals `string_literal_token t` for every
`rest`). -/
theorem c10_first_token_only (t : Tok) (rest : List Tok) (s : List Char)
    (h : string_literal_token t = .ok s) :
    string_literal (t :: rest) = .ok s ∧
    string_literal (t :: rest) = string_literal_token t :=
  ⟨h, rfl⟩

/-- Witness for C10: a stream whose first token is the literal `"x"`
followed by two junk tokens extracts to `x`. -/
theorem c10_first_token_only_witness :
    string_literal ([.lit ['"', 'x', '"'], .punct ',', .ident ['j']]) = .ok ['x'] :=
  (c10_first_token_only (.lit ['"', 'x', '"']) [.punct ',', .ident ['j']] ['x']
    (by decide)).1

/-- Claim C8 (code bug): on the literal token `"é"` — a quoted literal
with matching leading and trailing `"` — the extractor returns `é"`
instead of `é` (the trailing quote is NOT removed, because the source
compares character indices against the byte length), and on the
ill-quoted token `"é` it succeeds with `é` instead of failing. -/
theorem c8_literal_extractor_bug :
    string_literal_token (.lit ['"', 'é', '"']) = .ok ['é', '"'] ∧
    (Except.ok ['é', '"'] : Except String (List Char)) ≠ .ok ['é'] ∧
    string_literal_token (.lit ['"', 'é']) = .ok ['é'] := by
  decide

/-- Claim C4: for an input `p ++ ':' ++ s` whose part before the first
`:` is a nonempty registered prefix and whose suffix does not start with
`//`, failure of the concatenated IRI's validation makes `expand_iri`
return an error — it never falls back to validating the whole original
string. -/
theorem c4_expansion_failure_is_hard_error (valid : String → Bool) (p s : List Char)
    (prefixes : List (String × Iri)) (base : Iri)
    (hp : p ≠ []) (hc : ':' ∉ p)
    (hs : List.isPrefixOf ['/', '/'] s = false)
    (hg : hmGet prefixes (String.mk p) = some base)
    (hv : valid (base.val ++ String.mk s) = false) :
    expand_iri valid (p ++ ':' :: s) prefixes = .error () := by
  have hlen : 0 < p.length := List.length_pos.mpr hp
  rw [expand_iri, dropWhile_colon p s hc]
  simp only [takeWhile_colon p s hc]
  rw [if_pos hlen, if_pos (by simp [hs]), hg]
  simp [iriNew, hv]

/-- Witness for C4: with prefix table `{"p" -> "B"}` and a validator
that accepts only the original string `p:x` (so the fallback would have
succeeded), `expand_iri` on `p:x` still fails because the concatenation
`Bx` does not validate. -/
theorem c4_expansion_failure_is_hard_error_witness :
    expand_iri (fun str => str == "p:x") ("p".data ++ ':' :: "x".data)
      [("p", ⟨"B"⟩)] = .error () ∧
    (fun str => str == "p:x") (String.mk ("p".data ++ ':' :: "x".data)) = true :=
  ⟨c4_expansion_failure_is_hard_error (fun str => str == "p:x") "p".data "x".data
      [("p", ⟨"B"⟩)] ⟨"B"⟩ (by decide) (by decide) (by decide) (by decide) (by decide),
    by decide⟩

/-- Claim C5: for an input `p ++ ':' ++ s` whose suffix `s` starts with
`//`, `expand_iri` ignores the prefix table entirely — the result is the
direct absolute validation of the whole original string, and coincides
with expansion under the empty table. -/
theorem c5_authority_marker_guard (valid : String → Bool) (p s : List Char)
    (prefixes : List (String × Iri))
    (hp : p ≠ []) (hc : ':' ∉ p)
    (hs : List.isPrefixOf ['/', '/'] s = true) :
    expand_iri valid (p ++ ':' :: s) prefixes = expandAbsolute valid (p ++ ':' :: s) ∧
    expand_iri valid (p ++ ':' :: s) prefixes = expand_iri valid (p ++ ':' :: s) [] := by
  have hlen : 0 < p.length := List.length_pos.mpr hp
  have haux : ∀ m : List (String × Iri),
      expand_iri valid (p ++ ':' :: s) m = expandAbsolute valid (p ++ ':' :: s) := by
    intro m
    rw [expand_iri, dropWhile_colon p s hc]
    simp only [takeWhile_colon p s hc]
    rw [if_pos hlen, if_neg (by simp [hs])]
    rfl
  exact ⟨haux prefixes, (haux prefixes).trans (haux []).symm⟩

/-- Witness for C5: `expand_iri("http://example/x", {"http" -> "https://wrong/"})`
yields the literal absolute identifier `http://example/x`, not an
expansion through the registered `http` prefix. -/
theorem c5_authority_marker_guard_witness :
    expand_iri (fun str => str == "http://example/x")
      ("http".data ++ ':' :: "//example/x".data)
      [("http", ⟨"https://wrong/"⟩)] = .ok ⟨"http://example/x"⟩ :=
  ((c5_authority_marker_guard (fun str => str == "http://example/x")
      "http".data "//example/x".data [("http", ⟨"https://wrong/"⟩)]
      (by decide) (by decide) (by decide)).1).trans (by decide)

/-- Counterexample for C6: an `iri_prefix` argument stream whose middle
token is `+` instead of `=` and which carries an extra fourth token is
NOT rejected — the prefix binding `a -> b` is built and the whole
invocation succeeds, refuting the claim that any deviation from the
exact three-token shape fails with a malformed-prefix diagnostic. -/
theorem c6_prefix_shape_cex :
    buildPrefixes validTrue [plusAttr] [] = .ok [("a", ⟨"b"⟩)] ∧
    iri_enum_derive validTrue ⟨"E", [plusAttr], []⟩ = .code ⟨[], [], []⟩ := by
  decide

/-- Claim C6 as amended: the `iri_prefix` parser checks only that the
first token is a string literal, that SOME second token exists (its
identity, `=` or not, is never examined), and that the third token is a
string literal that validates as an IRI; tokens beyond the third are
ignored.  A single-token stream and a two-token stream still fail with
the corresponding diagnostics, as do an empty stream, a first token
that is not a string literal (with any tail), and a third token that is
not a string literal (with any tail). -/
theorem c6_prefix_shape_amended (valid : String → Bool) (t0 t1 t2 : Tok)
    (extra : List Tok) (m : List (String × Iri)) (pfx iriStr : List Char)
    (h0 : string_literal_token t0 = .ok pfx)
    (h2 : string_literal_token t2 = .ok iriStr)
    (hv : valid (String.mk iriStr) = true) :
    buildPrefixes valid [⟨some "iri_prefix", [.group (t0 :: t1 :: t2 :: extra)]⟩] m
      = .ok (hmInsert m (String.mk pfx) ⟨String.mk iriStr⟩) ∧
    buildPrefixes valid [⟨some "iri_prefix", [.group [t0]]⟩] m
      = .error "expected `=` literal" ∧
    buildPrefixes valid [⟨some "iri_prefix", [.group [t0, t1]]⟩] m
      = .error "expected a string literal" ∧
    buildPrefixes valid [⟨some "iri_prefix", [.group []]⟩] m
      = .error "expected a string literal" ∧
    (∀ (tb : Tok) (rest : List Tok) (e : String),
      string_literal_token tb = .error e →
      buildPrefixes valid [⟨some "iri_prefix", [.group (tb :: rest)]⟩] m
        = .error "expected a string literal") ∧
    (∀ (tb : Tok) (extra2 : List Tok) (e : String),
      string_literal_token tb = .error e →
      buildPrefixes valid [⟨some "iri_prefix", [.group (t0 :: t1 :: tb :: extra2)]⟩] m
        = .error "expected a string literal") := by
  have hf : ∀ ts : List Tok,
      filter_attribute ⟨some "iri_prefix", [.group ts]⟩ "iri_prefix" = .ok (some ts) := by
    intro ts
    rw [filter_attribute]
    simp
  refine ⟨?_, ?_, ?_, ?_, fun tb rest e hbad => ?_, fun tb extra2 e hbad => ?_⟩ <;>
    simp only [buildPrefixes, hf, h0, h2, iriNew, hv, if_true, hmInsert]
  · simp only [hbad]
  · simp only [hbad]

/-- Witness for C6 (amended): concrete instantiations — middle token `+`
and an extra token still produce the binding `a -> b`; the truncated
streams, the empty stream, a non-literal first token and a non-literal
third token all fail as described. -/
theorem c6_prefix_shape_amended_witness :
    buildPrefixes validTrue
      [⟨some "iri_prefix",
        [.group [.lit "\"a\"".data, .punct '+', .lit "\"b\"".data, .ident ['z']]]⟩] []
      = .ok [("a", ⟨"b"⟩)] ∧
    buildPrefixes validTrue [⟨some "iri_prefix", [.group [.lit "\"a\"".data]]⟩] []
      = .error "expected `=` literal" ∧
    buildPrefixes validTrue
      [⟨some "iri_prefix", [.group [.lit "\"a\"".data, .punct '+']]⟩] []
      = .error "expected a string literal" ∧
    buildPrefixes validTrue [⟨some "iri_prefix", [.group []]⟩] []
      = .error "expected a string literal" ∧
    buildPrefixes validTrue
      [⟨some "iri_prefix", [.group [.ident ['q'], .punct '=', .lit "\"b\"".data]]⟩] []
      = .error "expected a string literal" ∧
    buildPrefixes validTrue
      [⟨some "iri_prefix",
        [.group [.lit "\"a\"".data, .punct '+', .ident ['q'], .punct '!']]⟩] []
      = .error "expected a string literal" := by
  have h := c6_prefix_shape_amended validTrue (.lit "\"a\"".data) (.punct '+')
    (.lit "\"b\"".data) [.ident ['z']] [] "a".data "b".data
    (by decide) (by decide) (by decide)
  exact ⟨h.1, h.2.1, h.2.2.1, h.2.2.2.1,
    h.2.2.2.2.1 (.ident ['q']) [.punct '=', .lit "\"b\"".data] "expected string literal"
      (by decide),
    h.2.2.2.2.2 (.ident ['q']) [.punct '!'] "expected string literal" (by decide)⟩

/-- Counterexample for C2: for the enum with wrapping variants `W1(A)`
declared before `W2(B)` and an environment in which both inner types
parse the input, the generated parse routine resolves to `W2` — the
LAST-declared wrapping variant — refuting the claim that the
first-declared wrapping variant is tried first. -/
theorem c2_wrapping_order_cex :
    iri_enum_derive validFalse wrapPairAst = .code wrapPairCode ∧
    tryFromSem envAll wrapPairCode "x" = .ok (.wrapV "W2" ()) ∧
    (Except.ok (.wrapV "W2" ()) : Except Unit (EnumVal Unit)) ≠ .ok (.wrapV "W1" ()) := by
  decide

/-- Claim C2 as amended: when no `Unit` arm matches, the generated parse
routine tries the wrapping variants' delegates in REVERSE declaration
order (last-declared first, because each variant's match is wrapped
around the previous default), wrapping the first success; it fails when
every delegate fails, and the chain consists exactly of the enum's
single-unnamed-field variants. -/
theorem c2_wrapping_chain_amended {IV : Type} (valid : String → Bool) (ast : EnumInput)
    (g : GeneratedCode) (prefixes : List (String × Iri))
    (env : String → String → Except Unit IV) (iri : String)
    (hp : buildPrefixes valid ast.attrs [] = .ok prefixes)
    (hd : iri_enum_derive valid ast = .code g)
    (hnone : g.unitArms.find? (fun q => q.1 == iri) = none) :
    tryFromSem env g iri = chainTry env g.wraps.reverse iri ∧
    g.wraps = wrapsOf ast.variants ∧
    ((∀ w ∈ g.wraps, env w.2 iri = .error ()) → tryFromSem env g iri = .error ()) := by
  have h1 : tryFromSem env g iri = defaultSem env g.wraps iri := by
    rw [tryFromSem, hnone]
  have h2 := defaultSem_eq_chainTry env g.wraps iri
  have hpv := derive_code_processVariants valid ast g prefixes hp hd
  have hst := processVariants_structure valid prefixes ast.variants initState g hpv
  refine ⟨h1.trans h2, by simpa [initState] using hst.2.1, fun hall => ?_⟩
  rw [h1, h2]
  exact chainTry_all_fail env g.wraps.reverse iri
    (fun w hw => hall w (List.mem_reverse.mp hw))

/-- Witness for C2 (amended): concrete instantiation on the two-wrapping
enum — the match falls to the chain trying `W2` before `W1`. -/
theorem c2_wrapping_chain_amended_witness :
    tryFromSem envAll wrapPairCode "x" = chainTry envAll wrapPairCode.wraps.reverse "x" ∧
    wrapPairCode.wraps = wrapsOf wrapPairAst.variants ∧
    ((∀ w ∈ wrapPairCode.wraps, envAll w.2 "x" = .error ()) →
      tryFromSem envAll wrapPairCode "x" = .error ()) :=
  c2_wrapping_chain_amended validFalse wrapPairAst wrapPairCode [] envAll "x"
    (by decide) (by decide) (by decide)

/-- Claim C3: whenever generation succeeds and the input IRI equals the
expanded identifier of some `Unit` variant, the generated parse routine
resolves to a `Unit` variant with exactly that identifier — never to a
wrapping variant's delegate — for EVERY inner-type environment, hence
regardless of the declaration order between `Unit` and wrapping
variants. -/
theorem c3_unit_match_priority {IV : Type} (valid : String → Bool) (ast : EnumInput)
    (g : GeneratedCode) (prefixes : List (String × Iri))
    (env : String → String → Except Unit IV)
    (vs₁ vs₂ : List Variant) (v : Variant) (iri : Iri)
    (hp : buildPrefixes valid ast.attrs [] = .ok prefixes)
    (hd : iri_enum_derive valid ast = .code g)
    (hsplit : ast.variants = vs₁ ++ v :: vs₂)
    (hshape : v.fields = .unit)
    (hiri : processAttrs valid prefixes v.ident v.attrs none = .ok (some iri)) :
    ∃ m, tryFromSem env g iri.val = .ok (.unitV m) ∧ (iri.val, m) ∈ g.unitArms := by
  have hpv := derive_code_processVariants valid ast g prefixes hp hd
  have hst := processVariants_structure valid prefixes ast.variants initState g hpv
  have hmem : (iri.val, v.ident) ∈ g.unitArms := by
    rw [hst.1, hsplit, unitArmsOf_append,
      unitArmsOf_cons_unit valid prefixes v vs₂ iri hshape hiri]
    exact List.mem_append_right _
      (List.mem_append_right _ (List.mem_cons_self _ _))
  rcases hfind : g.unitArms.find? (fun q => q.1 == iri.val) with _ | q
  · rw [List.find?_eq_none] at hfind
    exact absurd (by simp : ((iri.val, v.ident).1 == iri.val) = true)
      (by simpa using hfind _ hmem)
  · have hq1 : q.1 = iri.val := by simpa using List.find?_some hfind
    have hqm : q ∈ g.unitArms := List.mem_of_find?_eq_some hfind
    refine ⟨q.2, ?_, ?_⟩
    · rw [tryFromSem, hfind]
    · rw [← hq1]
      simpa using hqm

/-- Witness for C3: the enum with one `Unit` variant `U` (identifier
`a:b`) and one wrapping variant `W(In)` whose inner type also parses
`a:b` (the environment accepts everything): parsing `a:b` resolves to a
`Unit` arm, not to the delegate. -/
theorem c3_unit_match_priority_witness :
    ∃ m, tryFromSem envAll
        (⟨[("a:b", "U")], [("W", "In")], [.unitArm "U" "a:b", .wrapArm "W" "In"]⟩ :
          GeneratedCode) "a:b" = .ok (.unitV m) ∧
      ("a:b", m) ∈ (⟨[("a:b", "U")], [("W", "In")], [.unitArm "U" "a:b", .wrapArm "W" "In"]⟩ :
          GeneratedCode).unitArms :=
  c3_unit_match_priority validAB
    ⟨"P", [], [⟨"U", [iriAttrOn "a:b"], .unit⟩, ⟨"W", [], .unnamed ["In"]⟩]⟩
    ⟨[("a:b", "U")], [("W", "In")], [.unitArm "U" "a:b", .wrapArm "W" "In"]⟩
    [] envAll [] [⟨"W", [], .unnamed ["In"]⟩] ⟨"U", [iriAttrOn "a:b"], .unit⟩ ⟨"a:b"⟩
    (by decide) (by decide) rfl rfl (by decide)

/-- Counterexample for C1: generation succeeds on an enum whose two
`Unit` variants `A` and `B` both carry the identifier `a:b`, and `B` is a
`Unit` variant with identifier `a:b`, yet parsing `a:b` yields `A`, not
`B` — so the claimed round trip `parse(I) = Ok(V)` fails for `V = B`
although its generation succeeded. -/
theorem c1_round_trip_cex :
    iri_enum_derive validAB dupAst = .code dupCode ∧
    ("a:b", "B") ∈ dupCode.unitArms ∧
    tryFromSem envNone dupCode "a:b" = .ok (.unitV "A") ∧
    (EnumVal.unitV "A" : EnumVal Unit) ≠ .unitV "B" := by
  decide

/-- Claim C1 as amended: for every enum whose generation succeeds and
every `Unit` variant `v` with expanded identifier `iri` such that no
EARLIER `Unit` variant carries the same identifier, the generated parse
routine maps `iri` to `v` (for every environment); and, provided no
earlier variant shares `v`'s name (the host language enforces distinct
variant names), the generated render routine maps `v` back to `iri`. -/
theorem c1_round_trip_amended {IV : Type} (valid : String → Bool) (ast : EnumInput)
    (g : GeneratedCode) (prefixes : List (String × Iri))
    (env : String → String → Except Unit IV) (renderInner : String → IV → String)
    (vs₁ vs₂ : List Variant) (v : Variant) (iri : Iri)
    (hp : buildPrefixes valid ast.attrs [] = .ok prefixes)
    (hd : iri_enum_derive valid ast = .code g)
    (hsplit : ast.variants = vs₁ ++ v :: vs₂)
    (hshape : v.fields = .unit)
    (hiri : processAttrs valid prefixes v.ident v.attrs none = .ok (some iri))
    (huniq : ∀ w ∈ vs₁, w.fields = .unit →
      processAttrs valid prefixes w.ident w.attrs none ≠ .ok (some iri))
    (hnames : ∀ w ∈ vs₁, w.ident ≠ v.ident) :
    tryFromSem env g iri.val = .ok (.unitV v.ident) ∧
    renderSem renderInner g.intoArms (.unitV v.ident) = some iri.val := by
  have hpv := derive_code_processVariants valid ast g prefixes hp hd
  have hst := processVariants_structure valid prefixes ast.variants initState g hpv
  have hu : g.unitArms = unitArmsOf valid prefixes vs₁
      ++ ((iri.val, v.ident) :: unitArmsOf valid prefixes vs₂) := by
    rw [hst.1, hsplit, unitArmsOf_append,
      unitArmsOf_cons_unit valid prefixes v vs₂ iri hshape hiri]
    simp [initState]
  have hfirst : ∀ q ∈ unitArmsOf valid prefixes vs₁, q.1 ≠ iri.val := by
    intro q hq hq1
    obtain ⟨w, hw, hwu, hwp, _⟩ := unitArmsOf_mem_fst valid prefixes vs₁ q hq
    apply huniq w hw hwu
    rw [hwp, hq1]
  have hfind : g.unitArms.find? (fun q => q.1 == iri.val) = some (iri.val, v.ident) := by
    rw [hu]
    exact find?_fst_split _ _ _ _ hfirst rfl
  constructor
  · rw [tryFromSem, hfind]
  · have hi : g.intoArms = intoArmsOf valid prefixes vs₁
        ++ (.unitArm v.ident iri.val :: intoArmsOf valid prefixes vs₂) := by
      rw [hst.2.2, hsplit, intoArmsOf_append,
        intoArmsOf_cons_unit valid prefixes v vs₂ iri hshape hiri]
      simp [initState]
    rw [hi]
    apply renderSem_unit_split
    intro b hb
    obtain ⟨w, hw, hbn⟩ := intoArmsOf_mem_name valid prefixes vs₁ b hb
    rw [hbn]
    exact hnames w hw

/-- Witness for C1 (amended): on the enum with `Unit` variants `Name`
(`s:n`) and `Knows` (`s:k`), parsing `s:k` yields `Knows` and rendering
`Knows` yields `s:k`. -/
theorem c1_round_trip_amended_witness :
    tryFromSem envAll twoUnitCode "s:k" = .ok (.unitV "Knows") ∧
    renderSem renderX twoUnitCode.intoArms (.unitV "Knows") = some "s:k" :=
  c1_round_trip_amended validSK twoUnitAst twoUnitCode [] envAll renderX
    [⟨"Name", [iriAttrOn "s:n"], .unit⟩] [] ⟨"Knows", [iriAttrOn "s:k"], .unit⟩ ⟨"s:k"⟩
    (by decide) (by decide) rfl rfl (by decide) (by decide) (by decide)

/-- Claim C7: once the variant loop reaches a variant `v` (the prefix
table built and all earlier variants processed successfully): if `v` has
no fields and no `iri` attribute, generation terminates with the
missing-identifier error naming `v`; if `v`'s attributes process without
error, then named fields terminate generation with the named-fields
error and an unnamed field count other than one terminates it with the
multi-field error — in every case the output is an error artifact, never
generated code. -/
theorem c7_variant_shape_rejection (valid : String → Bool) (ast : EnumInput)
    (prefixes : List (String × Iri)) (st : GeneratedCode)
    (vs₁ vs₂ : List Variant) (v : Variant)
    (hp : buildPrefixes valid ast.attrs [] = .ok prefixes)
    (hsplit : ast.variants = vs₁ ++ v :: vs₂)
    (hvs : processVariants valid prefixes vs₁ initState = .ok st) :
    (v.fields = .unit → (∀ a ∈ v.attrs, a.path ≠ some "iri") →
      iri_enum_derive valid ast
        = .error ("missing IRI for enum variant `" ++ v.ident ++ "`")) ∧
    (∀ acc, processAttrs valid prefixes v.ident v.attrs none = .ok acc →
      (v.fields = .named →
        iri_enum_derive valid ast = .error "variants with named fields are unsupported") ∧
      (∀ tys, v.fields = .unnamed tys → tys.length ≠ 1 →
        iri_enum_derive valid ast
          = .error "variants with named more than one field are unsupported")) := by
  have hlift : ∀ msg : String,
      processVariants valid prefixes (v :: vs₂) st = .error msg →
      iri_enum_derive valid ast = .error msg := by
    intro msg herr
    apply derive_error_of_processVariants valid ast prefixes msg hp
    rw [hsplit, processVariants_append, hvs]
    simpa using herr
  refine ⟨fun hshape hno => ?_, fun acc hacc => ⟨fun hshape => ?_, fun tys hshape hlen => ?_⟩⟩
  · apply hlift
    have hacc := processAttrs_no_iri valid prefixes v.ident v.attrs none hno
    simp only [processVariants, hacc, hshape]
  · apply hlift
    simp only [processVariants, hacc, hshape]
  · apply hlift
    simp only [processVariants, hacc, hshape]
    rcases tys with _ | ⟨t1, _ | ⟨t2, ts⟩⟩
    · rfl
    · exact absurd rfl hlen
    · rfl

/-- Witness for C7: the three rejection scenarios on concrete enums — a
`Unit` variant without an `iri` attribute, a variant with named fields,
and a variant with two unnamed fields. -/
theorem c7_variant_shape_rejection_witness :
    iri_enum_derive validTrue ⟨"E1", [], [⟨"A", [], .unit⟩]⟩
      = .error "missing IRI for enum variant `A`" ∧
    iri_enum_derive validTrue ⟨"E2", [], [⟨"B", [], .named⟩]⟩
      = .error "variants with named fields are unsupported" ∧
    iri_enum_derive validTrue ⟨"E3", [], [⟨"C", [], .unnamed ["X", "Y"]⟩]⟩
      = .error "variants with named more than one field are unsupported" :=
  ⟨by
    have h := (c7_variant_shape_rejection validTrue ⟨"E1", [], [⟨"A", [], .unit⟩]⟩
      [] initState [] [] ⟨"A", [], .unit⟩ (by decide) rfl (by decide)).1 rfl
      (by simp)
    simpa using h,
   by
    have h := ((c7_variant_shape_rejection validTrue ⟨"E2", [], [⟨"B", [], .named⟩]⟩
      [] initState [] [] ⟨"B", [], .named⟩ (by decide) rfl (by decide)).2 none
      (by decide)).1 rfl
    simpa using h,
   by
    have h := ((c7_variant_shape_rejection validTrue
      ⟨"E3", [], [⟨"C", [], .unnamed ["X", "Y"]⟩]⟩
      [] initState [] [] ⟨"C", [], .unnamed ["X", "Y"]⟩ (by decide) rfl
      (by decide)).2 none (by decide)).2 ["X", "Y"] rfl (by decide)
    simpa using h⟩

/-- Claim C9: an `iri` attribute on a wrapping variant (one unnamed
field) is not ignored — its string argument is extracted and expanded
against the prefix table, and if expansion fails the whole invocation
aborts with the invalid-IRI error naming the string and the variant,
although the identifier would never be used in the generated code. -/
theorem c9_wrapping_iri_still_validated (valid : String → Bool) (ast : EnumInput)
    (prefixes : List (String × Iri)) (st : GeneratedCode)
    (vs₁ vs₂ : List Variant) (v : Variant) (as₁ as₂ : List Attribute) (a : Attribute)
    (acc : Option Iri) (tokens : List Tok) (str : List Char) (ty : String)
    (hp : buildPrefixes valid ast.attrs [] = .ok prefixes)
    (hsplit : ast.variants = vs₁ ++ v :: vs₂)
    (hvs : processVariants valid prefixes vs₁ initState = .ok st)
    (hshape : v.fields = .unnamed [ty])
    (hattrs : v.attrs = as₁ ++ a :: as₂)
    (hacc : processAttrs valid prefixes v.ident as₁ none = .ok acc)
    (hfa : filter_attribute a "iri" = .ok (some tokens))
    (hlit : string_literal tokens = .ok str)
    (hexp : expand_iri valid str prefixes = .error ()) :
    iri_enum_derive valid ast
      = .error ("invalid IRI `" ++ String.mk str ++ "` for variant `"
          ++ v.ident ++ "`") := by
  have herr : processAttrs valid prefixes v.ident v.attrs none
      = .error ("invalid IRI `" ++ String.mk str ++ "` for variant `"
          ++ v.ident ++ "`") := by
    rw [hattrs, processAttrs_append, hacc]
    simp only [processAttrs, hfa, hlit, hexp]
  apply derive_error_of_processVariants valid ast prefixes _ hp
  rw [hsplit, processVariants_append, hvs]
  simp only [processVariants, herr]

/-- Witness for C9: the enum `badWrapAst` whose wrapping variant `W(T)`
carries `iri("bad")`, with a validator rejecting everything: the macro
aborts with the invalid-IRI error for `W` even though `W` is a wrapping
variant. -/
theorem c9_wrapping_iri_still_validated_witness :
    iri_enum_derive validFalse badWrapAst = .error "invalid IRI `bad` for variant `W`" := by
  have h := c9_wrapping_iri_still_validated validFalse badWrapAst [] initState
    [] [] ⟨"W", [iriAttrOn "bad"], .unnamed ["T"]⟩ [] [] (iriAttrOn "bad")
    none [.lit "\"bad\"".data] "bad".data "T"
    (by decide) rfl (by decide) rfl rfl (by decide) rfl (by decide) (by decide)
  simpa using h

example : string_literal_token (.lit ['"', 'é', '"']) = .ok ['é', '"'] := by decide
example : string_literal_token (.lit ['4', '2']) = .error "expected string literal" := by decide
example : string_literal_token (.ident ['a']) = .error "expected string literal" := by decide
example : expand_iri (fun s => s == "B/n") ['p', ':', 'n'] [("p", ⟨"B/"⟩)] = .ok ⟨"B/n"⟩ := by
  decide
example : expand_iri (fun s => s == "a:b") ['a', ':', 'b'] [] = .ok ⟨"a:b"⟩ := by decide
example :
    expand_iri (fun s => s == "http://example/x") "http://example/x".data
      [("http", ⟨"https://wrong/"⟩)] = .ok ⟨"http://example/x"⟩ := by decide
